import Mathlib

/-!
# ServerInstaller (`main.go`): a shallow embedding and its checked properties

Go `string` values are modelled as Lean `String`s (sequences of Unicode
characters, i.e. well-formed UTF-8 text) and processed through their character
lists.  Go `int` is the 64-bit signed integer of the usual targets; it is
modelled as `Int`, with the wrap-around made explicit where the source does
arithmetic and the range made explicit where the source parses.
-/

set_option autoImplicit false

namespace ServerInstaller

/-! ## Constants (`main.go`, lines 22-29) -/

/-- Download endpoint template. -/
def URL : String := "https://api.purpurmc.org/v2/purpur/%s/latest/download"
/-- Oldest "compound" version. -/
def OldestComp : Int := 1141
/-- Oldest "simple" version. -/
def OldestSimple : Int := 115
/-- Text of the oldest version, used in the error message. -/
def OldestText : String := "1.14.1"
/-- Name of the flat configuration file. -/
def PropertiesFile : String := "server.properties"
/-- Name of the structured configuration file. -/
def PurpurFile : String := "purpur.yml"

/-! ## Errors -/

/-- An operand handed to a formatting call. -/
inductive Arg where
  | str (s : String)
  | int (i : Int)
  | bytes (b : List Nat)
  deriving DecidableEq

/-- One variadic slot of a formatting call: a plain operand, or a whole slice
passed as a single operand. -/
inductive Operand where
  | val (a : Arg)
  | slice (xs : List Arg)
  deriving DecidableEq

/-- A Go `error` value.  Errors made by `fmt.Errorf` are recorded as the call
itself (format string and operands); errors of the runtime and of libraries are
recorded by their text. -/
structure GoError where
  format : String
  operands : List Operand
  deriving DecidableEq

/-- The call `fmt.Errorf(format, operands...)`. -/
def Errorf (format : String) (operands : List Operand) : GoError :=
  ⟨format, operands⟩

/-- Source `fail` (lines 297-303): without arguments the message is printed
through `"%s\n"`; with arguments the message becomes the format and the
argument slice is passed on as ONE operand (`args`, not `args...`). -/
def fail (msg : String) (args : List Arg) : GoError :=
  if args.length = 0 then
    Errorf "%s\n" [Operand.val (Arg.str msg)]
  else
    Errorf (msg ++ "\n") [Operand.slice args]

/-- Result of a Go function returning `(T, error)`. -/
abbrev Result (α : Type) := Except GoError α

instance instDecidableEqExcept {ε α : Type} [DecidableEq ε] [DecidableEq α] :
    DecidableEq (Except ε α)
  | Except.ok a, Except.ok b =>
    if h : a = b then isTrue (by rw [h]) else isFalse (fun h2 => h (Except.ok.inj h2))
  | Except.error a, Except.error b =>
    if h : a = b then isTrue (by rw [h]) else isFalse (fun h2 => h (Except.error.inj h2))
  | Except.ok _, Except.error _ => isFalse (fun h => Except.noConfusion h)
  | Except.error _, Except.ok _ => isFalse (fun h => Except.noConfusion h)

/-! ## Standard-library string helpers -/

/-- Library `strings.Split(s, sep)` for a one-character separator: the pieces
between successive separators; always at least one piece. -/
def Split : List Char → Char → List (List Char)
  | [], _ => [[]]
  | c :: cs, sep =>
    if c = sep then [] :: Split cs sep
    else
      match Split cs sep with
      | [] => [[c]]
      | t :: ts => (c :: t) :: ts

/-- Library `strings.ReplaceAll(s, old, new)` for a one-character `old`. -/
def ReplaceAll : List Char → Char → List Char → List Char
  | [], _, _ => []
  | c :: cs, old, new =>
    if c = old then new ++ ReplaceAll cs old new else c :: ReplaceAll cs old new

/-- Width of Go `int` (`strconv.IntSize`) on 64-bit targets. -/
def IntSize : Nat := 64

/-- Failure kinds of `strconv` (`ErrSyntax`, `ErrRange`). -/
inductive NumError where
  | ErrSyntax
  | ErrRange
  deriving DecidableEq

/-- The digit loop of library `strconv.ParseUint(s, 10, 64)`: every byte must
be a decimal digit; the accumulator may not leave the unsigned 64-bit range. -/
def parseUintLoop : Nat → List Char → Except NumError Nat
  | n, [] => Except.ok n
  | n, c :: cs =>
    if c.isDigit then
      -- cutoff = maxUint64/10 + 1
      if n ≥ (2 ^ 64 - 1) / 10 + 1 then Except.error NumError.ErrRange
      else
        let n1 := n * 10 + (c.toNat - 48)
        if n1 > 2 ^ 64 - 1 then Except.error NumError.ErrRange
        else parseUintLoop n1 cs
    else Except.error NumError.ErrSyntax

/-- Library `strconv.ParseUint(s, 10, 64)`. -/
def ParseUint (s : List Char) : Except NumError Nat :=
  if s = [] then Except.error NumError.ErrSyntax else parseUintLoop 0 s

/-- The range check of `strconv.ParseInt` after the sign has been picked
off. -/
def parseIntRange (neg : Bool) (r : Except NumError Nat) : Except NumError Int :=
  let cutoff : Nat := 2 ^ (IntSize - 1)
  match r with
  | Except.error NumError.ErrSyntax => Except.error NumError.ErrSyntax
  | Except.error NumError.ErrRange => Except.error NumError.ErrRange
  | Except.ok un =>
    if !neg && un ≥ cutoff then Except.error NumError.ErrRange
    else if neg && un > cutoff then Except.error NumError.ErrRange
    else Except.ok (if neg then -(un : Int) else (un : Int))

/-- Library `strconv.ParseInt(s, 10, 0)`: an optional sign, then `ParseUint`,
then the range check against the width of `int`. -/
def ParseInt (s : List Char) : Except NumError Int :=
  match s with
  | [] => Except.error NumError.ErrSyntax
  | c :: cs =>
    if c = '+' then parseIntRange false (ParseUint cs)
    else if c = '-' then parseIntRange true (ParseUint cs)
    else parseIntRange false (ParseUint (c :: cs))

/-- Library `strconv.Atoi(s)`, which is `ParseInt(s, 10, 0)` (its fast path for
short inputs computes the same result). -/
def Atoi (s : String) : Except NumError Int :=
  ParseInt s.toList

/-! ## Input validators (`main.go`, lines 233-295) -/

/-- Source `validateVersion` (lines 275-295). -/
def validateVersion (text : String) : Result String :=
  let tokens := Split text.toList '.'
  let length := tokens.length
  if length < 2 ∨ length > 3 then
    Except.error (fail "Versions can only have 2-3 tokens, ex.: 1.24 or 1.24.4" [])
  else
    let raw := String.mk (ReplaceAll text.toList '.' [])
    match Atoi raw with
    | Except.error _ =>
      Except.error (fail "Version can only contain numbers and dots, snapshots are not allowed" [])
    | Except.ok num =>
      if (length = 2 ∧ num < OldestSimple) ∨ (length = 3 ∧ num < OldestComp) then
        Except.error (fail "The oldest allowed version is %s" [Arg.str OldestText])
      else Except.ok text

/-- Source `handleNumber` (lines 241-247). -/
def handleNumber (text : String) : Result Int :=
  match Atoi text with
  | Except.error _ =>
    Except.error (fail "Only numbers are valid here, provided: %s" [Arg.str text])
  | Except.ok val => Except.ok val

/-- Source `handleGenSeed` (lines 233-239); `int64` and `int` have the same
width here. -/
def handleGenSeed (text : String) : Result Int :=
  match ParseInt text.toList with
  | Except.error _ => Except.error (fail "Only numbers can be provided for a seed" [])
  | Except.ok val => Except.ok val

/-- Library `strings.ToLower` on one ASCII byte. -/
def asciiLower (c : Char) : Char :=
  if 'A'.toNat ≤ c.toNat ∧ c.toNat ≤ 'Z'.toNat then Char.ofNat (c.toNat + 32) else c

/-- Library `strings.ToLower(s)`: an all-ASCII text has its letters `A`-`Z`
lowered byte by byte; any other text is mapped rune by rune through
`unicode.ToLower`, whose case tables are the parameter `unicodeToLower`. -/
def ToLower (unicodeToLower : Char → Char) (s : String) : String :=
  if s.toList.all (fun c => decide (c.toNat < 128)) then String.mk (s.toList.map asciiLower)
  else String.mk (s.toList.map unicodeToLower)

/-- Source `equals` (lines 253-260). -/
def equals (s : String) : List String → Bool
  | [] => false
  | v :: values => if s = v then true else equals s values

/-- Source `handleBool` (lines 249-251). -/
def handleBool (unicodeToLower : Char → Char) (text : String) : Result Bool :=
  Except.ok (equals (ToLower unicodeToLower text) ["y", "yes", "true", "ok", "1"])

/-! ## Spec-side notions used to state the version claims -/

/-- Decimal reading of a digit string, without any bound (spec side). -/
def decimalValue (s : List Char) : Nat :=
  s.foldl (fun n c => n * 10 + (c.toNat - 48)) 0

/-- Spec-side "numeric value" of an unsigned text: defined when the text is a
non-empty string of decimal digits. -/
def unsignedValue (s : List Char) : Option Nat :=
  if s ≠ [] ∧ s.all Char.isDigit = true then some (decimalValue s) else none

/-- Spec-side "numeric value" of a text: one optional sign followed by a
non-empty string of decimal digits, read in base ten as a mathematical
integer. -/
def numericValue (s : List Char) : Option Int :=
  match s with
  | [] => none
  | c :: cs =>
    if c = '+' then Option.map (fun (n : Nat) => (n : Int)) (unsignedValue cs)
    else if c = '-' then Option.map (fun (n : Nat) => -(n : Int)) (unsignedValue cs)
    else Option.map (fun (n : Nat) => (n : Int)) (unsignedValue (c :: cs))

/-- The text with all dots removed, as `validateVersion` computes it. -/
def stripDots (text : String) : List Char :=
  ReplaceAll text.toList '.' []

/-- Number of tokens of a text split on the dot. -/
def tokenCount (text : String) : Nat :=
  (Split text.toList '.').length

/-- Spec-side "Version Identifier": 2 or 3 tokens, each a non-empty string of
decimal digits. -/
def isVersionIdentifier (text : String) : Prop :=
  (tokenCount text = 2 ∨ tokenCount text = 3) ∧
    ∀ t ∈ Split text.toList '.', t ≠ [] ∧ t.all Char.isDigit = true

/-! ## Formatting -/

/-- Library `strconv.FormatInt(i, 10)`, which is also what the verbs `%d` and
`%v` print for an integer. -/
def FormatInt (i : Int) : String :=
  if i < 0 then "-" ++ Nat.repr i.natAbs else Nat.repr i.natAbs

/-- The text a `%s`, `%d` or `%v` verb prints for a matching operand. -/
def formatArg : Arg → List Char
  | Arg.str s => s.toList
  | Arg.int i => (FormatInt i).toList
  | Arg.bytes b => b.map Char.ofNat

/-- Worker of `Sprintf`: copies the format and replaces each two-character
verb by the text of the next operand. -/
def sprintfLoop : List Char → List Arg → List Char
  | [], _ => []
  | [c], _ => [c]
  | c :: v :: rest, args =>
    if c = '%' then
      match args with
      | [] => c :: v :: sprintfLoop rest []
      | a :: more => formatArg a ++ sprintfLoop rest more
    else c :: sprintfLoop (v :: rest) args

/-- Library `fmt.Sprintf`, restricted to the calls of the source that are
evaluated through it: formats whose verbs are plain `%s` and `%d`, each given
one operand of the matching kind. -/
def Sprintf (format : String) (args : List Arg) : String :=
  String.mk (sprintfLoop format.toList args)

/-- Two's-complement wrap-around of a mathematical integer into Go's 64-bit
`int`. -/
def wrapInt (x : Int) : Int :=
  (x + 2 ^ 63) % 2 ^ 64 - 2 ^ 63

/-! ## Go maps -/

/-- Lookup `m[key]` in a Go map with string keys, kept as an association
list. -/
def mapGet {β : Type} : List (String × β) → String → Option β
  | [], _ => none
  | (k, w) :: rest, key => if k = key then some w else mapGet rest key

/-- Assignment `m[key] = v` in a Go map with string keys. -/
def mapSet {β : Type} : List (String × β) → String → β → List (String × β)
  | [], key, v => [(key, v)]
  | (k, w) :: rest, key, v =>
    if k = key then (key, v) :: rest else (k, w) :: mapSet rest key v

/-! ## Flat configuration (`main.go`, lines 172-208) -/

/-- Library type `properties.Properties`: the map `m` of raw values and the
list `k` of keys in insertion order. -/
structure Properties where
  m : List (String × String)
  k : List String
  deriving DecidableEq

/-- Library `properties.NewProperties()`. -/
def NewProperties : Properties := ⟨[], []⟩

/-- Whether a value contains the expansion prefix `${`, i.e. whether
`strings.Index(value, "${")` is not `-1`. -/
def hasExpansion : List Char → Bool
  | [] => false
  | [_] => false
  | c :: d :: rest => (c = '$' && d = '{') || hasExpansion (d :: rest)

/-- Library `(*Properties).Set(key, value)` on a set made by `NewProperties()`:
an empty key is ignored; a value without the prefix `${` expands to itself and
is stored; for a value with the prefix the outcome of the expansion (circular
reference, malformed expression) is the parameter `expands`, and on failure
the set is put back as it was. -/
def Properties.Set (expands : Properties → String → String → Option GoError)
    (p : Properties) (key value : String) : Properties × Option GoError :=
  if key = "" then (p, none)
  else
    let ok := (mapGet p.m key).isSome
    let stored : Properties := ⟨mapSet p.m key value, p.k⟩
    let err := if hasExpansion value.toList then expands stored key value else none
    match err with
    | some e => (p, some e)
    | none => (⟨stored.m, if ok then p.k else p.k ++ [key]⟩, none)

/-- The keys listed in `k` are the keys of `m`. -/
def Properties.consistent (p : Properties) : Prop :=
  ∀ key : String, key ∈ p.k ↔ (mapGet p.m key).isSome = true

/-- A value handed to `SetValue` (`any` in the source). -/
inductive Value where
  | bool (b : Bool)
  | int (i : Int)
  | str (s : String)
  deriving DecidableEq

/-- The text `fmt.Sprintf("%v", value)` prints. -/
def Value.format : Value → String
  | Value.bool b => if b then "true" else "false"
  | Value.int i => FormatInt i
  | Value.str s => s

/-- Library `(*Properties).SetValue(key, value)`. -/
def Properties.SetValue (expands : Properties → String → String → Option GoError)
    (p : Properties) (key : String) (value : Value) : Properties × Option GoError :=
  p.Set expands key value.format

/-- A line written through the `log` package. -/
inductive LogLine where
  | failedToSet (name : String) (err : GoError)
  deriving DecidableEq

/-- Source `setProperty` (lines 203-208): a failed assignment is logged and
otherwise ignored. -/
def setProperty (expands : Properties → String → String → Option GoError)
    (st : Properties × List LogLine) (name : String) (value : Value) :
    Properties × List LogLine :=
  match st.1.SetValue expands name value with
  | (p, none) => (p, st.2)
  | (p, some err) => (p, st.2 ++ [LogLine.failedToSet name err])

/-- Lines 174-188 of source `createProperties`: the property set built before
the file is opened, together with the lines logged on the way. -/
def createPropertiesSet (expands : Properties → String → String → Option GoError)
    (offline : Bool) (maxPlayers simDistance viewDistance : Int) (isHardcore : Bool)
    (serverName : String) (whitelist : Bool) (seed : Int) : Properties × List LogLine :=
  let p := (NewProperties, ([] : List LogLine))
  let p := setProperty expands p "online-mode" (Value.bool (!offline))
  let p := setProperty expands p "max-players" (Value.int maxPlayers)
  let p := setProperty expands p "simulation-distance" (Value.int simDistance)
  let p := setProperty expands p "view-distance" (Value.int viewDistance)
  let p := setProperty expands p "hardcore" (Value.bool isHardcore)
  let p := setProperty expands p "server-name" (Value.str serverName)
  let p := setProperty expands p "white-list" (Value.bool whitelist)
  let p := setProperty expands p "spawn-protection" (Value.int 0)
  let p := setProperty expands p "enforce-whitelist" (Value.bool whitelist)
  if seed ≠ 0 then setProperty expands p "level-seed" (Value.int seed) else p

/-- Lines 45-48 of source `main`: the seed stays 0 unless a custom seed was
asked for. -/
def mainSeed (customSeed : Bool) (provided : Int) : Int :=
  if customSeed then provided else 0

/-! ## Operating system and libraries -/

/-- Contents of a file or of a response body; each element is one byte. -/
abbrev Bytes := List Nat

/-- The conversion `[]byte(s)`: the UTF-8 encoding of the text. -/
def toBytes (s : String) : Bytes :=
  (s.toList.map (fun c => (String.utf8EncodeChar c).map UInt8.toNat)).flatten

/-- A call that returns normally with a value, or panics. -/
inductive Outcome (α : Type) where
  | ret (a : α)
  | panic (e : GoError)
  deriving DecidableEq

/-- One interaction with the file system. -/
inductive Event where
  | ReadFile (path : String)
  | WriteFile (path : String) (data : Bytes)
  | OpenFile (path : String)
  | WriteProperties (path : String) (p : Properties)
  deriving DecidableEq

/-- The operating-system and library calls of the source that touch the world
outside the program, over a state `σ` of the file system. -/
structure OS (σ : Type) where
  /-- Value of `runtime.GOOS`. -/
  GOOS : String
  /-- Library `filepath.Abs`. -/
  Abs : String → Result String
  /-- Library `os.ReadFile`. -/
  ReadFile : σ → String → Result Bytes
  /-- Library `os.WriteFile(name, data, 0644)`. -/
  WriteFile : σ → String → Bytes → σ × Option GoError
  /-- Library `os.OpenFile(name, O_WRONLY|O_CREATE|O_TRUNC, 0644)`. -/
  OpenFile : σ → String → σ × Option GoError
  /-- Library `(*Properties).Write(file, properties.UTF8)` on an open file. -/
  WriteProperties : σ → String → Properties → σ × Option GoError

/-- What a call leaves behind: its outcome, the state of the file system and
the interactions it performed, in order. -/
structure Run (σ α : Type) where
  outcome : Outcome α
  fs : σ
  trace : List Event

/-- Source `absPath` (lines 99-105). -/
def absPath {σ : Type} (os : OS σ) (filename : String) : Outcome String :=
  match os.Abs filename with
  | Except.error err => Outcome.panic err
  | Except.ok abs => Outcome.ret abs

/-- Source `createProperties` (lines 172-201). -/
def createProperties {σ : Type} (os : OS σ)
    (expands : Properties → String → String → Option GoError)
    (offline : Bool) (maxPlayers simDistance viewDistance : Int) (isHardcore : Bool)
    (serverName : String) (whitelist : Bool) (seed : Int) (fs : σ) :
    Run σ (Option GoError) :=
  let p := (createPropertiesSet expands offline maxPlayers simDistance viewDistance
    isHardcore serverName whitelist seed).1
  match absPath os PropertiesFile with
  | Outcome.panic e => ⟨Outcome.panic e, fs, []⟩
  | Outcome.ret path =>
    match os.OpenFile fs path with
    | (fs1, some err) => ⟨Outcome.ret (some err), fs1, [Event.OpenFile path]⟩
    | (fs1, none) =>
      match os.WriteProperties fs1 path p with
      | (fs2, some err) =>
        ⟨Outcome.ret (some err), fs2, [Event.OpenFile path, Event.WriteProperties path p]⟩
      | (fs2, none) =>
        ⟨Outcome.ret none, fs2, [Event.OpenFile path, Event.WriteProperties path p]⟩

/-! ## Launcher script (`main.go`, lines 305-325) -/

/-- Source `getRunScript` (lines 323-325). -/
def getRunScript (heapSize : Int) : String :=
  Sprintf "java -Xms%dM -Xmx%dM -jar server.jar nogui" [Arg.int heapSize, Arg.int heapSize]

/-- The script text built by source `createRunButton` (lines 306-307); the
product is taken in Go's 64-bit `int`. -/
def runButtonScript (heap : Int) : String :=
  let ram := wrapInt (heap * 1024)
  getRunScript ram ++ "\nPAUSE"

/-- Source `createRunButton` (lines 305-321). -/
def createRunButton {σ : Type} (os : OS σ) (heap : Int) (fs : σ) : Run σ (Option GoError) :=
  let cmd := runButtonScript heap
  let filename := if os.GOOS = "windows" then "run.bat" else "run.sh"
  match absPath os filename with
  | Outcome.panic e => ⟨Outcome.panic e, fs, []⟩
  | Outcome.ret path =>
    match os.WriteFile fs path (toBytes cmd) with
    | (fs1, some err) => ⟨Outcome.ret (some err), fs1, [Event.WriteFile path (toBytes cmd)]⟩
    | (fs1, none) => ⟨Outcome.ret none, fs1, [Event.WriteFile path (toBytes cmd)]⟩

/-! ## Structured configuration (`main.go`, lines 107-139) -/

/-- A Go `any` value as the YAML decoder produces it.  A mapping whose keys are
all strings comes out with the dynamic type `map[string]any` (`map`), the only
one the type assertion of the source accepts; a mapping with some key that is
not a string comes out as `map[any]any` (`anyMap`). -/
inductive YamlValue where
  | null
  | bool (b : Bool)
  | int (i : Int)
  | float (text : String)
  | str (s : String)
  | seq (items : List YamlValue)
  | map (entries : List (String × YamlValue))
  | anyMap (entries : List (YamlValue × YamlValue))

/-- Spec-side "nested mapping": a value that is a mapping, whatever its keys. -/
def isNestedMapping : YamlValue → Bool
  | YamlValue.map _ => true
  | YamlValue.anyMap _ => true
  | _ => false

/-- The two calls into the YAML library, into and from `map[string]any`. -/
structure YAML where
  /-- Library `yaml.Unmarshal(data, &config)`. -/
  Unmarshal : Bytes → Result (List (String × YamlValue))
  /-- Library `yaml.Marshal(&config)`. -/
  Marshal : List (String × YamlValue) → Result Bytes

/-- The type assertion `config["settings"].(map[string]any)` (line 124). -/
def assertSettings (config : List (String × YamlValue)) :
    Option (List (String × YamlValue)) :=
  match mapGet config "settings" with
  | some (YamlValue.map settings) => some settings
  | _ => none

/-- The document after line 128: `settings` is the very map stored under
`config["settings"]`, so the assignment shows in `config`. -/
def patchedConfig (config settings : List (String × YamlValue)) (keepalive : Bool) :
    List (String × YamlValue) :=
  mapSet config "settings"
    (YamlValue.map (mapSet settings "use-alternate-keepalive" (YamlValue.bool keepalive)))

/-- The shape error of line 126. -/
def settingsShapeError : GoError :=
  Errorf "could not parse %s, \"settings\" was expected to be an object\n"
    [Operand.val (Arg.str PurpurFile)]

/-- Source `adjustPurpurFile` (lines 107-139). -/
def adjustPurpurFile {σ : Type} (os : OS σ) (yaml : YAML) (keepalive : Bool) (fs : σ) :
    Run σ (Option GoError) :=
  if !keepalive then ⟨Outcome.ret none, fs, []⟩
  else
    match absPath os PurpurFile with
    | Outcome.panic e => ⟨Outcome.panic e, fs, []⟩
    | Outcome.ret configFile =>
      match os.ReadFile fs configFile with
      | Except.error err => ⟨Outcome.ret (some err), fs, [Event.ReadFile configFile]⟩
      | Except.ok data =>
        match yaml.Unmarshal data with
        | Except.error err => ⟨Outcome.ret (some err), fs, [Event.ReadFile configFile]⟩
        | Except.ok config =>
          match assertSettings config with
          | none => ⟨Outcome.ret (some settingsShapeError), fs, [Event.ReadFile configFile]⟩
          | some settings =>
            match yaml.Marshal (patchedConfig config settings keepalive) with
            | Except.error err => ⟨Outcome.ret (some err), fs, [Event.ReadFile configFile]⟩
            | Except.ok newData =>
              match os.WriteFile fs configFile newData with
              | (fs1, some err) =>
                ⟨Outcome.ret (some err), fs1,
                  [Event.ReadFile configFile, Event.WriteFile configFile newData]⟩
              | (fs1, none) =>
                ⟨Outcome.ret none, fs1,
                  [Event.ReadFile configFile, Event.WriteFile configFile newData]⟩

/-! ## Artifact download (`main.go`, lines 210-231) -/

/-- An HTTP request as built by `http.NewRequest`. -/
structure Request where
  method : String
  url : String
  deriving DecidableEq

/-- The part of an HTTP response the source looks at; `ρ` is the type of the
unread body. -/
structure Response (ρ : Type) where
  StatusCode : Int
  Body : ρ

/-- The network calls of the source. -/
structure HTTP (ρ : Type) where
  /-- Library `http.NewRequest(method, url, nil)`: fails on a malformed URL. -/
  NewRequest : String → String → Result Request
  /-- Library `client.Do(req)`. -/
  Do : Request → Result (Response ρ)
  /-- Library `io.ReadAll(resp.Body)`. -/
  ReadAll : ρ → Result Bytes

/-- Source `downloadJarFile` (lines 210-231); `none` stands for the `nil`
byte slice returned next to an error. -/
def downloadJarFile {ρ : Type} (http : HTTP ρ) (version : String) :
    Option Bytes × Option GoError :=
  let url := Sprintf URL [Arg.str version]
  match http.NewRequest "GET" url with
  | Except.error err => (none, some err)
  | Except.ok req =>
    match http.Do req with
    | Except.error err => (none, some err)
    | Except.ok resp =>
      match http.ReadAll resp.Body with
      | Except.error err => (none, some err)
      | Except.ok body =>
        if resp.StatusCode = 400 then
          (none, some (fail "Version \"%s\" was not found, code %d, response: %s"
            [Arg.str version, Arg.int resp.StatusCode, Arg.bytes body]))
        else (some body, none)

/-! ## Prompt loop (`main.go`, lines 336-355) -/

/-- Library `unicode.IsSpace`. -/
def isSpace (c : Char) : Bool :=
  let n := c.toNat
  n = 0x09 || n = 0x0A || n = 0x0B || n = 0x0C || n = 0x0D || n = 0x20 || n = 0x85 ||
    n = 0xA0 || n = 0x1680 || (0x2000 ≤ n && n ≤ 0x200A) || n = 0x2028 || n = 0x2029 ||
    n = 0x202F || n = 0x205F || n = 0x3000

/-- Library `strings.TrimSpace`. -/
def TrimSpace (s : List Char) : List Char :=
  ((s.dropWhile isSpace).reverse.dropWhile isSpace).reverse

/-- Library `(*bufio.Reader).ReadString(delim)` on what is left of the input:
the text up to and including the first delimiter and the rest of the input, or
`none` (the error `io.EOF`) when the input ends before a delimiter. -/
def ReadString : List Char → Char → Option (List Char × List Char)
  | [], _ => none
  | c :: cs, delim =>
    if c = delim then some ([c], cs)
    else
      match ReadString cs delim with
      | none => none
      | some (line, rest) => some (c :: line, rest)

/-- What the prompt loop writes to standard output. -/
inductive Output where
  | Print (text : String)
  | Println (err : GoError)
  deriving DecidableEq

/-- The error `io.EOF`. -/
def EOF : GoError := Errorf "EOF" []

/-- Source `readLine` (lines 348-355): prints the prompt, reads one line and
trims it; panics when the input ends before a newline.  The first component is
what was printed. -/
def readLine (reader : List Char) (text : String) :
    List Output × Outcome (String × List Char) :=
  match ReadString reader '\n' with
  | none => ([Output.Print text], Outcome.panic EOF)
  | some (val, rest) => ([Output.Print text], Outcome.ret (String.mk (TrimSpace val), rest))

/-- How a call of `input` ends. -/
inductive InputResult (T : Type) where
  /-- Returned `value`; `rest` is the unread input, `out` what was printed. -/
  | returned (value : T) (rest : List Char) (out : List Output)
  /-- Panicked in `readLine`. -/
  | panicked (e : GoError) (out : List Output)
  /-- The iteration bound of the model was used up (never the case, see
  `input_total`). -/
  | unfinished
  deriving DecidableEq

/-- The loop of source `input` (lines 337-345), run for at most `fuel`
iterations. -/
def inputLoop {T : Type} (text : String) (mapper : String → Result T) :
    Nat → List Char → List Output → InputResult T
  | 0, _, _ => InputResult.unfinished
  | fuel + 1, reader, out =>
    match readLine reader text with
    | (printed, Outcome.panic e) => InputResult.panicked e (out ++ printed)
    | (printed, Outcome.ret (val, rest)) =>
      match mapper val with
      | Except.ok mapped => InputResult.returned mapped rest (out ++ printed)
      | Except.error err =>
        inputLoop text mapper fuel rest (out ++ printed ++ [Output.Println err])

/-- Source `input` (lines 336-346).  Every iteration consumes at least one
character of the input, so one iteration more than the input has characters is
enough for the loop to end. -/
def input {T : Type} (reader : List Char) (text : String) (mapper : String → Result T) :
    InputResult T :=
  inputLoop text mapper (reader.length + 1) reader []

/-- The input made of the given lines, each ended by a newline, followed by
`rest`. -/
def feed (lines : List (List Char)) (rest : List Char) : List Char :=
  match lines with
  | [] => rest
  | l :: more => l ++ '\n' :: feed more rest

/-! ## A small concrete world, used to instantiate the statements -/

/-- A file system kept as a map from paths to contents, on which every call
succeeds when the file is there. -/
def demoOS : OS (List (String × Bytes)) where
  GOOS := "linux"
  Abs := fun name => Except.ok ("/srv/" ++ name)
  ReadFile := fun fs path =>
    match mapGet fs path with
    | some data => Except.ok data
    | none => Except.error (Errorf "open: no such file or directory" [])
  WriteFile := fun fs path data => (mapSet fs path data, none)
  OpenFile := fun fs path => (mapSet fs path [], none)
  WriteProperties := fun fs _ _ => (fs, none)

/-- A YAML library that reads every file as the given document and writes
every document as the empty file. -/
def demoYAML (doc : List (String × YamlValue)) : YAML where
  Unmarshal := fun _ => Except.ok doc
  Marshal := fun _ => Except.ok []

/-- A network on which every request is answered with the given status and
the body `[80, 75]`. -/
def demoHTTP (status : Int) : HTTP Bytes where
  NewRequest := fun method url => Except.ok ⟨method, url⟩
  Do := fun _ => Except.ok ⟨status, [80, 75]⟩
  ReadAll := fun body => Except.ok body

/-! # Theorems -/

/-! ## Facts about the string helpers -/

theorem Split_ne_nil (s : List Char) (sep : Char) : Split s sep ≠ [] := by
  induction s with
  | nil => simp [Split]
  | cons c cs ih =>
    unfold Split
    split
    · simp
    · split <;> simp

theorem ReplaceAll_eq_join (s : List Char) (sep : Char) :
    ReplaceAll s sep [] = (Split s sep).flatten := by
  induction s with
  | nil => simp [Split, ReplaceAll]
  | cons c cs ih =>
    unfold Split ReplaceAll
    by_cases h : c = sep
    · simp [h, ih]
    · simp only [h, if_false]
      rw [ih]
      cases hs : Split cs sep with
      | nil => exact absurd hs (Split_ne_nil cs sep)
      | cons t ts => simp

theorem foldl_digit_ge (s : List Char) (n : Nat) :
    n ≤ s.foldl (fun n c => n * 10 + (c.toNat - 48)) n := by
  induction s generalizing n with
  | nil => simp
  | cons c cs ih =>
    simp only [List.foldl_cons]
    have := ih (n * 10 + (c.toNat - 48))
    omega

theorem parseUintLoop_ok_iff (s : List Char) (n v : Nat) (hn : n < 2 ^ 64) :
    parseUintLoop n s = Except.ok v ↔
      s.all Char.isDigit = true ∧
        s.foldl (fun n c => n * 10 + (c.toNat - 48)) n = v ∧ v < 2 ^ 64 := by
  induction s generalizing n with
  | nil =>
    simp only [parseUintLoop, List.all_nil, List.foldl_nil, true_and]
    constructor
    · intro h
      have h2 : n = v := Except.ok.inj h
      exact ⟨h2, h2 ▸ hn⟩
    · rintro ⟨h, _⟩
      rw [h]
  | cons c cs ih =>
    have hge := foldl_digit_ge cs (n * 10 + (c.toNat - 48))
    unfold parseUintLoop
    by_cases hd : c.isDigit = true
    · simp only [hd, if_true, List.all_cons, Bool.true_and, List.foldl_cons]
      by_cases h1 : n ≥ (2 ^ 64 - 1) / 10 + 1
      · simp only [h1, if_true]
        constructor
        · intro h; cases h
        · rintro ⟨_, h2, h3⟩
          exfalso
          norm_num at h1
          omega
      · simp only [h1, if_false]
        by_cases h2 : n * 10 + (c.toNat - 48) > 2 ^ 64 - 1
        · simp only [h2, if_true]
          constructor
          · intro h; cases h
          · rintro ⟨_, h3, h4⟩
            exfalso
            norm_num at h2
            omega
        · simp only [h2, if_false]
          apply ih
          norm_num at h2 ⊢
          omega
    · simp only [hd, List.all_cons]
      constructor
      · intro h; cases h
      · rintro ⟨h, _⟩
        simp at h

theorem ParseUint_ok_iff (s : List Char) (v : Nat) :
    ParseUint s = Except.ok v ↔ unsignedValue s = some v ∧ v < 2 ^ 64 := by
  unfold ParseUint unsignedValue decimalValue
  by_cases hs : s = []
  · simp [hs]
  · simp only [hs, if_false, ne_eq, not_false_eq_true, true_and]
    rw [parseUintLoop_ok_iff s 0 v (by norm_num)]
    by_cases hd : s.all Char.isDigit = true
    · simp [hd]
    · simp [hd]

theorem parseIntRange_false_ok_iff (r : Except NumError Nat) (v : Int) :
    parseIntRange false r = Except.ok v ↔
      ∃ un : Nat, r = Except.ok un ∧ un < 2 ^ 63 ∧ v = (un : Int) := by
  match r with
  | Except.error NumError.ErrSyntax => simp [parseIntRange]
  | Except.error NumError.ErrRange => simp [parseIntRange]
  | Except.ok un =>
    simp only [parseIntRange, IntSize, Except.ok.injEq, exists_eq_left']
    norm_num
    by_cases h : 9223372036854775808 ≤ un
    · rw [if_pos h]
      constructor
      · intro h2; cases h2
      · rintro ⟨h2, _⟩; omega
    · rw [if_neg h]
      constructor
      · intro h2; exact ⟨by omega, (Except.ok.inj h2).symm⟩
      · rintro ⟨_, h2⟩; rw [h2]

theorem parseIntRange_true_ok_iff (r : Except NumError Nat) (v : Int) :
    parseIntRange true r = Except.ok v ↔
      ∃ un : Nat, r = Except.ok un ∧ un ≤ 2 ^ 63 ∧ v = -(un : Int) := by
  match r with
  | Except.error NumError.ErrSyntax => simp [parseIntRange]
  | Except.error NumError.ErrRange => simp [parseIntRange]
  | Except.ok un =>
    simp only [parseIntRange, IntSize, Except.ok.injEq, exists_eq_left']
    norm_num
    by_cases h : 9223372036854775808 < un
    · rw [if_pos h]
      constructor
      · intro h2; cases h2
      · rintro ⟨h2, _⟩; omega
    · rw [if_neg h]
      constructor
      · intro h2; exact ⟨by omega, (Except.ok.inj h2).symm⟩
      · rintro ⟨_, h2⟩; rw [h2]

theorem parse_nonneg_ok_iff (t : List Char) (v : Int) :
    parseIntRange false (ParseUint t) = Except.ok v ↔
      Option.map (fun (n : Nat) => (n : Int)) (unsignedValue t) = some v ∧
        -(2 : Int) ^ 63 ≤ v ∧ v < (2 : Int) ^ 63 := by
  rw [parseIntRange_false_ok_iff]
  constructor
  · rintro ⟨un, h1, h2, h3⟩
    rw [((ParseUint_ok_iff t un).1 h1).1]
    refine ⟨by simp [h3], ?_, ?_⟩ <;> omega
  · rintro ⟨h1, h2, h3⟩
    cases hu : unsignedValue t with
    | none => simp [hu] at h1
    | some un =>
      simp only [hu, Option.map_some', Option.some.injEq] at h1
      exact ⟨un, (ParseUint_ok_iff t un).2 ⟨hu, by omega⟩, by omega, h1.symm⟩

theorem parse_neg_ok_iff (t : List Char) (v : Int) :
    parseIntRange true (ParseUint t) = Except.ok v ↔
      Option.map (fun (n : Nat) => -(n : Int)) (unsignedValue t) = some v ∧
        -(2 : Int) ^ 63 ≤ v ∧ v < (2 : Int) ^ 63 := by
  rw [parseIntRange_true_ok_iff]
  constructor
  · rintro ⟨un, h1, h2, h3⟩
    rw [((ParseUint_ok_iff t un).1 h1).1]
    refine ⟨by simp [h3], ?_, ?_⟩ <;> omega
  · rintro ⟨h1, h2, h3⟩
    cases hu : unsignedValue t with
    | none => simp [hu] at h1
    | some un =>
      simp only [hu, Option.map_some', Option.some.injEq] at h1
      exact ⟨un, (ParseUint_ok_iff t un).2 ⟨hu, by omega⟩, by omega, h1.symm⟩

/-- `strconv.ParseInt` succeeds exactly on the texts that have a numeric value
inside the signed 64-bit range, and returns that value. -/
theorem ParseInt_ok_iff (s : List Char) (v : Int) :
    ParseInt s = Except.ok v ↔
      numericValue s = some v ∧ -(2 : Int) ^ 63 ≤ v ∧ v < (2 : Int) ^ 63 := by
  cases s with
  | nil => simp [ParseInt, numericValue]
  | cons c cs =>
    simp only [ParseInt, numericValue]
    by_cases hp : c = '+'
    · rw [if_pos hp, if_pos hp]
      exact parse_nonneg_ok_iff cs v
    · rw [if_neg hp, if_neg hp]
      by_cases hm : c = '-'
      · rw [if_pos hm, if_pos hm]
        exact parse_neg_ok_iff cs v
      · rw [if_neg hm, if_neg hm]
        exact parse_nonneg_ok_iff (c :: cs) v

/-! ## Version validation -/

theorem validateVersion_unfold (text : String) :
    validateVersion text =
      if tokenCount text < 2 ∨ tokenCount text > 3 then
        Except.error (fail "Versions can only have 2-3 tokens, ex.: 1.24 or 1.24.4" [])
      else
        match ParseInt (stripDots text) with
        | Except.error _ =>
          Except.error
            (fail "Version can only contain numbers and dots, snapshots are not allowed" [])
        | Except.ok num =>
          if (tokenCount text = 2 ∧ num < OldestSimple) ∨
              (tokenCount text = 3 ∧ num < OldestComp) then
            Except.error (fail "The oldest allowed version is %s" [Arg.str OldestText])
          else Except.ok text := rfl

/-- Acceptance by `validateVersion`, spelled out on the parsed number. -/
theorem validateVersion_ok_iff (text : String) :
    validateVersion text = Except.ok text ↔
      ∃ num : Int, ParseInt (stripDots text) = Except.ok num ∧
        ((tokenCount text = 2 ∧ OldestSimple ≤ num) ∨
          (tokenCount text = 3 ∧ OldestComp ≤ num)) := by
  rw [validateVersion_unfold]
  by_cases hlen : tokenCount text < 2 ∨ tokenCount text > 3
  · rw [if_pos hlen]
    constructor
    · intro h; cases h
    · rintro ⟨num, _, h | h⟩ <;> omega
  · rw [if_neg hlen]
    cases hp : ParseInt (stripDots text) with
    | error e =>
      constructor
      · intro h; cases h
      · rintro ⟨num, h, _⟩; cases h
    | ok num =>
      simp only []
      by_cases hc : (tokenCount text = 2 ∧ num < OldestSimple) ∨
          (tokenCount text = 3 ∧ num < OldestComp)
      · rw [if_pos hc]
        constructor
        · intro h; cases h
        · rintro ⟨n2, h, h2⟩
          cases h
          rcases hc with ⟨a, b⟩ | ⟨a, b⟩ <;> rcases h2 with ⟨c, d⟩ | ⟨c, d⟩ <;> omega
      · rw [if_neg hc]
        constructor
        · intro _
          refine ⟨num, rfl, ?_⟩
          have h23 : tokenCount text = 2 ∨ tokenCount text = 3 := by omega
          rcases h23 with h2 | h3
          · left
            refine ⟨h2, ?_⟩
            by_contra hlt
            exact hc (Or.inl ⟨h2, by omega⟩)
          · right
            refine ⟨h3, ?_⟩
            by_contra hlt
            exact hc (Or.inr ⟨h3, by omega⟩)
        · intro _; rfl

theorem validateVersion_ok_eq (text s : String) (h : validateVersion text = Except.ok s) :
    s = text := by
  rw [validateVersion_unfold] at h
  split at h
  · cases h
  · split at h
    · cases h
    · split at h
      · cases h
      · exact (Except.ok.inj h).symm

theorem unsignedValue_some (s : List Char) (n : Nat) (h : unsignedValue s = some n) :
    s ≠ [] ∧ s.all Char.isDigit = true := by
  unfold unsignedValue at h
  split at h
  · assumption
  · cases h

/-- What an accepted text looks like once its dots are removed. -/
theorem accepted_stripDots (text : String) (h : validateVersion text = Except.ok text) :
    ∃ ds : List Char, ds ≠ [] ∧ ds.all Char.isDigit = true ∧
      (stripDots text = ds ∨ stripDots text = '+' :: ds) := by
  obtain ⟨num, hp, hfloor⟩ := (validateVersion_ok_iff text).1 h
  obtain ⟨hv, _, _⟩ := (ParseInt_ok_iff _ _).1 hp
  have hnum : 115 ≤ num := by
    rcases hfloor with ⟨_, h2⟩ | ⟨_, h2⟩
    · simpa [OldestSimple] using h2
    · have : (1141 : Int) ≤ num := by simpa [OldestComp] using h2
      omega
  cases hs : stripDots text with
  | nil => rw [hs] at hv; simp [numericValue] at hv
  | cons c cs =>
    rw [hs] at hv
    simp only [numericValue] at hv
    by_cases hplus : c = '+'
    · rw [if_pos hplus] at hv
      cases hu : unsignedValue cs with
      | none => simp [hu] at hv
      | some n =>
        obtain ⟨h1, h2⟩ := unsignedValue_some cs n hu
        exact ⟨cs, h1, h2, Or.inr (by rw [hplus])⟩
    · rw [if_neg hplus] at hv
      by_cases hminus : c = '-'
      · rw [if_pos hminus] at hv
        cases hu : unsignedValue cs with
        | none => simp [hu] at hv
        | some n =>
          simp only [hu, Option.map_some', Option.some.injEq] at hv
          omega
      · rw [if_neg hminus] at hv
        cases hu : unsignedValue (c :: cs) with
        | none => simp [hu] at hv
        | some n =>
          obtain ⟨h1, h2⟩ := unsignedValue_some (c :: cs) n hu
          exact ⟨c :: cs, h1, h2, Or.inl rfl⟩

/-- The floors are compared with the dot-free number, not with the version
order: `"1.7.10"` reads as 1710, which is not below 1141, and is accepted,
although the comment of lines 289-290 calls versions older than 1.14.1
failing. -/
theorem validateVersion_accepts_1_7_10 :
    validateVersion "1.7.10" = Except.ok "1.7.10" := by
  decide

/-- C1 (as stated, refuted): a two-token text whose digits read as a number far
above the floor is nevertheless rejected, because the number does not fit the
64-bit `int` that `strconv.Atoi` parses into. -/
theorem validateVersion_value_beyond_int_rejected :
    tokenCount "1.99999999999999999999" = 2 ∧
      numericValue (stripDots "1.99999999999999999999") = some 199999999999999999999 ∧
      OldestSimple ≤ 199999999999999999999 ∧
      validateVersion "1.99999999999999999999" =
        Except.error
          (fail "Version can only contain numbers and dots, snapshots are not allowed" []) ∧
      ¬ (∀ text : String, tokenCount text = 2 →
          (validateVersion text = Except.ok text ↔
            ∃ v : Int, numericValue (stripDots text) = some v ∧ OldestSimple ≤ v)) := by
  refine ⟨by decide, by decide, by decide, by decide, ?_⟩
  intro hall
  have h := (hall "1.99999999999999999999" (by decide)).2
    ⟨199999999999999999999, by decide, by decide⟩
  revert h
  decide

/-- C1 (amended): a text of exactly 2 tokens is accepted, and returned
unchanged, if and only if its dot-free form has a numeric value that is at
least `OldestSimple` (115) and fits the signed 64-bit `int`; a text of exactly
3 tokens, if and only if that value is at least `OldestComp` (1141) and fits.
Any accepted result is the input text itself.  `"1.14"` and `"1.13"` are
rejected as too old and `"1.14.1"` is accepted. -/
theorem validateVersion_floor (text : String) :
    (tokenCount text = 2 →
      (validateVersion text = Except.ok text ↔
        ∃ v : Int, numericValue (stripDots text) = some v ∧ OldestSimple ≤ v ∧
          v < (2 : Int) ^ 63)) ∧
    (tokenCount text = 3 →
      (validateVersion text = Except.ok text ↔
        ∃ v : Int, numericValue (stripDots text) = some v ∧ OldestComp ≤ v ∧
          v < (2 : Int) ^ 63)) ∧
    (∀ s : String, validateVersion text = Except.ok s → s = text) ∧
    validateVersion "1.14" =
      Except.error (fail "The oldest allowed version is %s" [Arg.str OldestText]) ∧
    validateVersion "1.13" =
      Except.error (fail "The oldest allowed version is %s" [Arg.str OldestText]) ∧
    validateVersion "1.14.1" = Except.ok "1.14.1" := by
  refine ⟨?_, ?_, fun s h => validateVersion_ok_eq text s h, by decide, by decide, by decide⟩
  · intro h2
    rw [validateVersion_ok_iff]
    constructor
    · rintro ⟨num, hp, hf⟩
      obtain ⟨hv, _, hhi⟩ := (ParseInt_ok_iff _ _).1 hp
      rcases hf with ⟨_, hf⟩ | ⟨h3, _⟩
      · exact ⟨num, hv, hf, hhi⟩
      · omega
    · rintro ⟨v, hv, hf, hhi⟩
      refine ⟨v, (ParseInt_ok_iff _ _).2 ⟨hv, ?_, hhi⟩, Or.inl ⟨h2, hf⟩⟩
      have : (115 : Int) ≤ v := by simpa [OldestSimple] using hf
      omega
  · intro h3
    rw [validateVersion_ok_iff]
    constructor
    · rintro ⟨num, hp, hf⟩
      obtain ⟨hv, _, hhi⟩ := (ParseInt_ok_iff _ _).1 hp
      rcases hf with ⟨h2, _⟩ | ⟨_, hf⟩
      · omega
      · exact ⟨num, hv, hf, hhi⟩
    · rintro ⟨v, hv, hf, hhi⟩
      refine ⟨v, (ParseInt_ok_iff _ _).2 ⟨hv, ?_, hhi⟩, Or.inr ⟨h3, hf⟩⟩
      have : (1141 : Int) ≤ v := by simpa [OldestComp] using hf
      omega

/-- Witness for C1: the amended statement applied to `"1.15"` (2 tokens) and to
`"1.20.4"` (3 tokens). -/
theorem validateVersion_floor_witness :
    tokenCount "1.15" = 2 ∧ validateVersion "1.15" = Except.ok "1.15" ∧
      tokenCount "1.20.4" = 3 ∧ validateVersion "1.20.4" = Except.ok "1.20.4" :=
  ⟨by decide,
    ((validateVersion_floor "1.15").1 (by decide)).2 ⟨115, by decide, by decide, by decide⟩,
    by decide,
    ((validateVersion_floor "1.20.4").2.1 (by decide)).2
      ⟨1204, by decide, by decide, by decide⟩⟩

/-- C2: a text whose split on the dot gives fewer than 2 or more than 3 tokens
(in particular a text without any dot, such as the empty text) is rejected, and
the error is the token-count error, which differs from the non-numeric error
and from the below-minimum error. -/
theorem validateVersion_token_count (text : String)
    (h : tokenCount text < 2 ∨ 3 < tokenCount text ∨ '.' ∉ text.toList) :
    validateVersion text =
        Except.error (fail "Versions can only have 2-3 tokens, ex.: 1.24 or 1.24.4" []) ∧
      validateVersion text ≠
        Except.error
          (fail "Version can only contain numbers and dots, snapshots are not allowed" []) ∧
      validateVersion text ≠
        Except.error (fail "The oldest allowed version is %s" [Arg.str OldestText]) := by
  have hcount : tokenCount text < 2 ∨ tokenCount text > 3 := by
    rcases h with h | h | h
    · exact Or.inl h
    · exact Or.inr h
    · left
      have : ∀ l : List Char, '.' ∉ l → (Split l '.').length = 1 := by
        intro l
        induction l with
        | nil => intro _; rfl
        | cons c cs ih =>
          intro hc
          have hne : c ≠ '.' := fun e => hc (by simp [e])
          have hcs : '.' ∉ cs := fun e => hc (List.mem_cons_of_mem _ e)
          have := ih hcs
          unfold Split
          rw [if_neg hne]
          cases hs : Split cs '.' with
          | nil => rfl
          | cons t ts =>
            rw [hs] at this
            simpa using this
      have := this text.toList h
      unfold tokenCount
      omega
  have hv : validateVersion text =
      Except.error (fail "Versions can only have 2-3 tokens, ex.: 1.24 or 1.24.4" []) := by
    rw [validateVersion_unfold, if_pos hcount]
  rw [hv]
  exact ⟨rfl, by decide, by decide⟩

/-- Witness for C2: the empty text, a text without a dot and a four-token
text. -/
theorem validateVersion_token_count_witness :
    validateVersion "" =
        Except.error (fail "Versions can only have 2-3 tokens, ex.: 1.24 or 1.24.4" []) ∧
      validateVersion "1.2.3.4" =
        Except.error (fail "Versions can only have 2-3 tokens, ex.: 1.24 or 1.24.4" []) :=
  ⟨(validateVersion_token_count "" (Or.inl (by decide))).1,
    (validateVersion_token_count "1.2.3.4" (Or.inr (Or.inl (by decide)))).1⟩

/-- C3 (as stated, refuted): `"1..141"` is accepted although its middle token
is empty, and `"+1.15"` is accepted although its first token is not a string of
digits; neither is a Version Identifier. -/
theorem validateVersion_accepts_non_identifier :
    validateVersion "1..141" = Except.ok "1..141" ∧ ¬ isVersionIdentifier "1..141" ∧
      validateVersion "+1.15" = Except.ok "+1.15" ∧ ¬ isVersionIdentifier "+1.15" := by
  refine ⟨by decide, ?_, by decide, ?_⟩
  · intro h
    have := (h.2 [] (by decide)).1
    exact this rfl
  · intro h
    have := (h.2 ['+', '1'] (by decide)).2
    revert this
    decide

/-- C3 (amended): a text that `validateVersion` accepts splits on the dot into
2 or 3 tokens, and the tokens put together form a non-empty string of decimal
digits, possibly preceded by one `+`.  (Single tokens may be empty.) -/
theorem validateVersion_accepted_shape (text : String)
    (h : validateVersion text = Except.ok text) :
    (tokenCount text = 2 ∨ tokenCount text = 3) ∧
      ∃ ds : List Char, ds ≠ [] ∧ ds.all Char.isDigit = true ∧
        ((Split text.toList '.').flatten = ds ∨
          (Split text.toList '.').flatten = '+' :: ds) := by
  constructor
  · obtain ⟨_, _, hf⟩ := (validateVersion_ok_iff text).1 h
    rcases hf with ⟨h2, _⟩ | ⟨h3, _⟩
    · exact Or.inl h2
    · exact Or.inr h3
  · have := accepted_stripDots text h
    unfold stripDots at this
    rw [ReplaceAll_eq_join] at this
    exact this

/-- Witness for C3: the amended statement applied to the accepted text
`"1.20.4"`. -/
theorem validateVersion_accepted_shape_witness :
    validateVersion "1.20.4" = Except.ok "1.20.4" ∧
      (tokenCount "1.20.4" = 2 ∨ tokenCount "1.20.4" = 3) :=
  ⟨by decide, (validateVersion_accepted_shape "1.20.4" (by decide)).1⟩

/-! ## Boolean answers -/

theorem equals_iff_mem (s : String) (values : List String) :
    equals s values = true ↔ s ∈ values := by
  induction values with
  | nil => simp [equals]
  | cons v vs ih =>
    unfold equals
    by_cases h : s = v
    · simp [h]
    · simp [h, ih]

/-- C4: `handleBool` never returns an error; it returns true exactly when the
lower-cased text is one of "y", "yes", "true", "ok", "1", and false for every
other text, the empty one included.  This holds whatever the Unicode case
tables are. -/
theorem handleBool_affirmative (unicodeToLower : Char → Char) (text : String) :
    (∀ e : GoError, handleBool unicodeToLower text ≠ Except.error e) ∧
      (handleBool unicodeToLower text = Except.ok true ↔
        ToLower unicodeToLower text ∈ ["y", "yes", "true", "ok", "1"]) ∧
      (handleBool unicodeToLower text = Except.ok false ↔
        ToLower unicodeToLower text ∉ ["y", "yes", "true", "ok", "1"]) ∧
      handleBool unicodeToLower "" = Except.ok false ∧
      handleBool unicodeToLower "YES" = Except.ok true ∧
      handleBool unicodeToLower "no" = Except.ok false := by
  refine ⟨?_, ?_, ?_, rfl, rfl, rfl⟩
  · intro e h
    cases h
  · rw [← equals_iff_mem]
    unfold handleBool
    constructor
    · intro h; exact Except.ok.inj h
    · intro h; rw [h]
  · rw [← equals_iff_mem]
    unfold handleBool
    constructor
    · intro h
      rw [Except.ok.inj h]
      simp
    · intro h
      rw [Bool.eq_false_iff.2 h]

/-! ## Decimal formatting -/

theorem digitChar_isDigit (d : Nat) (h : d < 10) : (Nat.digitChar d).isDigit = true := by
  interval_cases d <;> decide

theorem toDigitsCore_isDigit (fuel n : Nat) (acc : List Char)
    (hacc : ∀ c ∈ acc, c.isDigit = true) :
    ∀ c ∈ Nat.toDigitsCore 10 fuel n acc, c.isDigit = true := by
  induction fuel generalizing n acc with
  | zero => simpa [Nat.toDigitsCore] using hacc
  | succ fuel ih =>
    have hd : (Nat.digitChar (n % 10)).isDigit = true :=
      digitChar_isDigit _ (Nat.mod_lt _ (by norm_num))
    have hacc2 : ∀ c ∈ Nat.digitChar (n % 10) :: acc, c.isDigit = true := by
      intro c hc
      rcases List.mem_cons.1 hc with h | h
      · rw [h]; exact hd
      · exact hacc c h
    unfold Nat.toDigitsCore
    simp only []
    split
    · exact hacc2
    · exact ih _ _ hacc2

theorem repr_isDigit (n : Nat) : ∀ c ∈ (Nat.repr n).toList, c.isDigit = true := by
  unfold Nat.repr Nat.toDigits
  exact toDigitsCore_isDigit _ _ _ (by simp)

/-- A formatted integer consists of decimal digits and at most a minus sign. -/
theorem FormatInt_chars (i : Int) :
    ∀ c ∈ (FormatInt i).toList, c.isDigit = true ∨ c = '-' := by
  intro c hc
  unfold FormatInt at hc
  split at hc
  · rw [String.toList, String.data_append] at hc
    rcases List.mem_append.1 hc with h | h
    · right
      simpa using h
    · left
      exact repr_isDigit _ c h
  · left
    exact repr_isDigit _ c hc

theorem hasExpansion_false_of_no_dollar (l : List Char) (h : '$' ∉ l) :
    hasExpansion l = false := by
  induction l with
  | nil => rfl
  | cons c cs ih =>
    cases cs with
    | nil => rfl
    | cons d rest =>
      have hc : c ≠ '$' := fun e => h (by simp [e])
      have hrest : '$' ∉ d :: rest := fun e => h (List.mem_cons_of_mem _ e)
      simp [hasExpansion, hc, ih hrest]

theorem FormatInt_no_expansion (i : Int) : hasExpansion (FormatInt i).toList = false := by
  apply hasExpansion_false_of_no_dollar
  intro h
  rcases FormatInt_chars i _ h with h2 | h2
  · revert h2; decide
  · revert h2; decide

/-! ## Go maps and property sets -/

theorem mapGet_mapSet_same {β : Type} (m : List (String × β)) (key : String) (v : β) :
    mapGet (mapSet m key v) key = some v := by
  induction m with
  | nil => simp [mapSet, mapGet]
  | cons e rest ih =>
    obtain ⟨k, w⟩ := e
    unfold mapSet
    by_cases h : k = key
    · simp [h, mapGet]
    · simp [h, mapGet, ih]

theorem mapGet_mapSet_other {β : Type} (m : List (String × β)) (key other : String) (v : β)
    (hne : other ≠ key) : mapGet (mapSet m key v) other = mapGet m other := by
  induction m with
  | nil =>
    have : ¬ key = other := fun e => hne e.symm
    simp [mapSet, mapGet, this]
  | cons e rest ih =>
    obtain ⟨k, w⟩ := e
    unfold mapSet
    by_cases h : k = key
    · have : ¬ key = other := fun e => hne e.symm
      simp [h, mapGet, this]
    · by_cases h2 : k = other
      · subst h2
        simp [hne, mapGet]
      · simp [h, h2, mapGet, ih]

theorem Set_cases (expands : Properties → String → String → Option GoError)
    (p : Properties) (key value : String) :
    (p.Set expands key value).1 = p ∨
      (key ≠ "" ∧ (p.Set expands key value).1 =
        ⟨mapSet p.m key value, if (mapGet p.m key).isSome then p.k else p.k ++ [key]⟩) := by
  unfold Properties.Set
  by_cases hk : key = ""
  · left; simp [hk]
  · rw [if_neg hk]
    simp only []
    split
    · left; rfl
    · right; exact ⟨hk, rfl⟩

theorem Set_stores (expands : Properties → String → String → Option GoError)
    (p : Properties) (key value : String) (hk : key ≠ "")
    (hv : hasExpansion value.toList = false) :
    (p.Set expands key value).1 =
      ⟨mapSet p.m key value, if (mapGet p.m key).isSome then p.k else p.k ++ [key]⟩ := by
  unfold Properties.Set
  rw [if_neg hk]
  simp only [hv, Bool.false_eq_true, if_false]

theorem setProperty_fst (expands : Properties → String → String → Option GoError)
    (st : Properties × List LogLine) (name : String) (value : Value) :
    (setProperty expands st name value).1 = (st.1.Set expands name value.format).1 := by
  unfold setProperty Properties.SetValue
  split <;> rename_i h <;> rw [h]

theorem setProperty_consistent (expands : Properties → String → String → Option GoError)
    (st : Properties × List LogLine) (name : String) (value : Value)
    (h : st.1.consistent) : (setProperty expands st name value).1.consistent := by
  rw [setProperty_fst]
  rcases Set_cases expands st.1 name value.format with h1 | ⟨_, h1⟩
  · rw [h1]; exact h
  · rw [h1]
    intro key
    by_cases hk : key = name
    · subst hk
      simp only [mapGet_mapSet_same, Option.isSome_some, iff_true]
      by_cases ho : (mapGet st.1.m key).isSome = true
      · rw [if_pos ho]; exact (h key).2 ho
      · rw [if_neg ho]; simp
    · simp only [mapGet_mapSet_other _ _ _ _ hk]
      by_cases ho : (mapGet st.1.m name).isSome = true
      · rw [if_pos ho]; exact h key
      · rw [if_neg ho]
        rw [List.mem_append, ← h key]
        simp [hk]

theorem setProperty_get_other (expands : Properties → String → String → Option GoError)
    (st : Properties × List LogLine) (name other : String) (value : Value)
    (hne : other ≠ name) :
    mapGet (setProperty expands st name value).1.m other = mapGet st.1.m other := by
  rw [setProperty_fst]
  rcases Set_cases expands st.1 name value.format with h1 | ⟨_, h1⟩
  · rw [h1]
  · rw [h1]
    exact mapGet_mapSet_other _ _ _ _ hne

theorem setProperty_get_same (expands : Properties → String → String → Option GoError)
    (st : Properties × List LogLine) (name : String) (value : Value) (hk : name ≠ "")
    (hv : hasExpansion value.format.toList = false) :
    mapGet (setProperty expands st name value).1.m name = some value.format := by
  rw [setProperty_fst, Set_stores expands st.1 name value.format hk hv]
  exact mapGet_mapSet_same _ _ _

theorem NewProperties_consistent : NewProperties.consistent := by
  intro key
  simp [NewProperties, mapGet]

theorem createPropertiesSet_consistent
    (expands : Properties → String → String → Option GoError)
    (offline : Bool) (maxPlayers simDistance viewDistance : Int) (isHardcore : Bool)
    (serverName : String) (whitelist : Bool) (seed : Int) :
    (createPropertiesSet expands offline maxPlayers simDistance viewDistance isHardcore
      serverName whitelist seed).1.consistent := by
  unfold createPropertiesSet
  simp only []
  split
  · repeat apply setProperty_consistent
    exact NewProperties_consistent
  · repeat apply setProperty_consistent
    exact NewProperties_consistent

theorem createPropertiesSet_spawn
    (expands : Properties → String → String → Option GoError)
    (offline : Bool) (maxPlayers simDistance viewDistance : Int) (isHardcore : Bool)
    (serverName : String) (whitelist : Bool) (seed : Int) :
    mapGet (createPropertiesSet expands offline maxPlayers simDistance viewDistance isHardcore
      serverName whitelist seed).1.m "spawn-protection" = some "0" := by
  unfold createPropertiesSet
  simp only []
  split
  · rw [setProperty_get_other _ _ _ _ _ (by decide),
      setProperty_get_other _ _ _ _ _ (by decide),
      setProperty_get_same _ _ _ _ (by decide) (by decide)]
    rfl
  · rw [setProperty_get_other _ _ _ _ _ (by decide),
      setProperty_get_same _ _ _ _ (by decide) (by decide)]
    rfl

theorem createPropertiesSet_seed
    (expands : Properties → String → String → Option GoError)
    (offline : Bool) (maxPlayers simDistance viewDistance : Int) (isHardcore : Bool)
    (serverName : String) (whitelist : Bool) (seed : Int) :
    mapGet (createPropertiesSet expands offline maxPlayers simDistance viewDistance isHardcore
      serverName whitelist seed).1.m "level-seed" =
      if seed ≠ 0 then some (FormatInt seed) else none := by
  unfold createPropertiesSet
  simp only []
  split
  · rw [setProperty_get_same _ _ "level-seed" (Value.int seed) (by decide)
      (FormatInt_no_expansion seed)]
    rfl
  · iterate 9 rw [setProperty_get_other _ _ _ _ _ (by decide)]
    rfl

theorem createProperties_run {σ : Type} (os : OS σ)
    (expands : Properties → String → String → Option GoError)
    (offline : Bool) (maxPlayers simDistance viewDistance : Int) (isHardcore : Bool)
    (serverName : String) (whitelist : Bool) (seed : Int) (fs : σ) (path : String)
    (habs : os.Abs PropertiesFile = Except.ok path) (hopen : (os.OpenFile fs path).2 = none) :
    (createProperties os expands offline maxPlayers simDistance viewDistance isHardcore
        serverName whitelist seed fs).trace =
      [Event.OpenFile path,
        Event.WriteProperties path
          (createPropertiesSet expands offline maxPlayers simDistance viewDistance
            isHardcore serverName whitelist seed).1] ∧
    (createProperties os expands offline maxPlayers simDistance viewDistance isHardcore
        serverName whitelist seed fs).fs =
      (os.WriteProperties (os.OpenFile fs path).1 path
        (createPropertiesSet expands offline maxPlayers simDistance viewDistance
          isHardcore serverName whitelist seed).1).1 ∧
    (createProperties os expands offline maxPlayers simDistance viewDistance isHardcore
        serverName whitelist seed fs).outcome =
      Outcome.ret (os.WriteProperties (os.OpenFile fs path).1 path
        (createPropertiesSet expands offline maxPlayers simDistance viewDistance
          isHardcore serverName whitelist seed).1).2 := by
  cases ho : os.OpenFile fs path with
  | mk fs1 oerr =>
    rw [ho] at hopen
    simp only [] at hopen
    subst hopen
    cases hw : os.WriteProperties fs1 path
        (createPropertiesSet expands offline maxPlayers simDistance viewDistance
          isHardcore serverName whitelist seed).1 with
    | mk fs2 werr =>
      unfold createProperties absPath
      simp only [habs, ho, hw]
      cases werr <;> exact ⟨rfl, rfl, rfl⟩

/-- C5: whatever the answers are, the property set that `createProperties`
builds holds the key `spawn-protection` with the value `0`, and it holds the
key `level-seed` if and only if the seed is not zero (then with the seed as its
value); with no custom seed the seed is zero and no `level-seed` is emitted.
Whenever the destination file can be opened, `createProperties` hands exactly
this set to the writer of the flat config, and no other set ever. -/
theorem createProperties_spawn_protection_and_seed
    (expands : Properties → String → String → Option GoError)
    (offline : Bool) (maxPlayers simDistance viewDistance : Int) (isHardcore : Bool)
    (serverName : String) (whitelist : Bool) (seed : Int) :
    mapGet (createPropertiesSet expands offline maxPlayers simDistance viewDistance isHardcore
        serverName whitelist seed).1.m "spawn-protection" = some "0" ∧
      "spawn-protection" ∈ (createPropertiesSet expands offline maxPlayers simDistance
        viewDistance isHardcore serverName whitelist seed).1.k ∧
      ((mapGet (createPropertiesSet expands offline maxPlayers simDistance viewDistance
        isHardcore serverName whitelist seed).1.m "level-seed").isSome = true ↔ seed ≠ 0) ∧
      ("level-seed" ∈ (createPropertiesSet expands offline maxPlayers simDistance viewDistance
        isHardcore serverName whitelist seed).1.k ↔ seed ≠ 0) ∧
      (seed ≠ 0 →
        mapGet (createPropertiesSet expands offline maxPlayers simDistance viewDistance
          isHardcore serverName whitelist seed).1.m "level-seed" = some (FormatInt seed)) ∧
      (∀ provided : Int,
        mapGet (createPropertiesSet expands offline maxPlayers simDistance viewDistance
          isHardcore serverName whitelist (mainSeed false provided)).1.m "level-seed" = none) ∧
      (∀ (σ : Type) (os : OS σ) (fs : σ) (path : String) (q : Properties),
        Event.WriteProperties path q ∈
            (createProperties os expands offline maxPlayers simDistance viewDistance isHardcore
              serverName whitelist seed fs).trace →
          q = (createPropertiesSet expands offline maxPlayers simDistance viewDistance
            isHardcore serverName whitelist seed).1) ∧
      (∀ (σ : Type) (os : OS σ) (fs : σ) (path : String),
        os.Abs PropertiesFile = Except.ok path → (os.OpenFile fs path).2 = none →
          (createProperties os expands offline maxPlayers simDistance viewDistance isHardcore
              serverName whitelist seed fs).trace =
            [Event.OpenFile path,
              Event.WriteProperties path
                (createPropertiesSet expands offline maxPlayers simDistance viewDistance
                  isHardcore serverName whitelist seed).1] ∧
          (createProperties os expands offline maxPlayers simDistance viewDistance isHardcore
              serverName whitelist seed fs).fs =
            (os.WriteProperties (os.OpenFile fs path).1 path
              (createPropertiesSet expands offline maxPlayers simDistance viewDistance
                isHardcore serverName whitelist seed).1).1 ∧
          (createProperties os expands offline maxPlayers simDistance viewDistance isHardcore
              serverName whitelist seed fs).outcome =
            Outcome.ret (os.WriteProperties (os.OpenFile fs path).1 path
              (createPropertiesSet expands offline maxPlayers simDistance viewDistance
                isHardcore serverName whitelist seed).1).2) := by
  have hcons := createPropertiesSet_consistent expands offline maxPlayers simDistance
    viewDistance isHardcore serverName whitelist seed
  have hspawn := createPropertiesSet_spawn expands offline maxPlayers simDistance
    viewDistance isHardcore serverName whitelist seed
  have hseed := createPropertiesSet_seed expands offline maxPlayers simDistance
    viewDistance isHardcore serverName whitelist seed
  have hiff : (mapGet (createPropertiesSet expands offline maxPlayers simDistance viewDistance
      isHardcore serverName whitelist seed).1.m "level-seed").isSome = true ↔ seed ≠ 0 := by
    rw [hseed]
    by_cases h0 : seed = 0
    · simp [h0]
    · simp [h0]
  refine ⟨hspawn, ?_, hiff, ?_, ?_, ?_, ?_, ?_⟩
  rotate_right
  · intro σ os fs path habs hopen
    exact createProperties_run os expands offline maxPlayers simDistance viewDistance
      isHardcore serverName whitelist seed fs path habs hopen
  · rw [hcons "spawn-protection", hspawn]
    rfl
  · rw [hcons "level-seed"]
    exact hiff
  · intro h0
    rw [hseed, if_pos h0]
  · intro provided
    rw [createPropertiesSet_seed]
    simp [mainSeed]
  · intro σ os fs path q hq
    unfold createProperties at hq
    simp only [] at hq
    split at hq
    · simp at hq
    · split at hq
      · simp at hq
      · split at hq
        · simp at hq
          exact hq.2
        · simp at hq
          exact hq.2

/-- Witness for C5: on the concrete world, with a seed of 7, the flat config is
opened and then written with the set that was built, which holds
`spawn-protection=0` and `level-seed=7`. -/
theorem createProperties_spawn_protection_and_seed_witness :
    (createProperties demoOS (fun _ _ _ => none) false 20 4 10 false "srv" true 7 []).trace =
        [Event.OpenFile "/srv/server.properties",
          Event.WriteProperties "/srv/server.properties"
            (createPropertiesSet (fun _ _ _ => none) false 20 4 10 false "srv" true 7).1] ∧
      mapGet (createPropertiesSet (fun _ _ _ => none) false 20 4 10 false "srv" true 7).1.m
        "spawn-protection" = some "0" ∧
      mapGet (createPropertiesSet (fun _ _ _ => none) false 20 4 10 false "srv" true 7).1.m
        "level-seed" = some "7" :=
  ⟨((createProperties_spawn_protection_and_seed (fun _ _ _ => none) false 20 4 10 false
      "srv" true 7).2.2.2.2.2.2.2 _ demoOS [] "/srv/server.properties" rfl rfl).1,
    (createProperties_spawn_protection_and_seed (fun _ _ _ => none) false 20 4 10 false
      "srv" true 7).1,
    (createProperties_spawn_protection_and_seed (fun _ _ _ => none) false 20 4 10 false
      "srv" true 7).2.2.2.2.1 (by decide)⟩

/-! ## Launcher script -/

theorem getRunScript_eq (n : Int) :
    getRunScript n =
      "java -Xms" ++ FormatInt n ++ "M -Xmx" ++ FormatInt n ++ "M -jar server.jar nogui" := by
  apply String.ext
  simp only [String.data_append, List.append_assoc]
  rfl

theorem getRunScript_single_line (n : Int) : '\n' ∉ (getRunScript n).toList := by
  have hf : '\n' ∉ (FormatInt n).data := by
    intro h
    rcases FormatInt_chars n _ h with h2 | h2
    · revert h2; decide
    · revert h2; decide
  rw [getRunScript_eq]
  simp only [String.toList, String.data_append, List.mem_append, not_or]
  exact ⟨⟨⟨⟨by decide, hf⟩, by decide⟩, hf⟩, by decide⟩

theorem wrapInt_of_fits (x : Int) (h : -(2 : Int) ^ 63 ≤ x ∧ x < (2 : Int) ^ 63) :
    wrapInt x = x := by
  unfold wrapInt
  omega

theorem createRunButton_run {σ : Type} (os : OS σ) (heap : Int) (fs : σ) (path : String)
    (habs : os.Abs (if os.GOOS = "windows" then "run.bat" else "run.sh") = Except.ok path) :
    (createRunButton os heap fs).trace =
        [Event.WriteFile path (toBytes (runButtonScript heap))] ∧
      (createRunButton os heap fs).fs =
        (os.WriteFile fs path (toBytes (runButtonScript heap))).1 ∧
      (createRunButton os heap fs).outcome =
        Outcome.ret (os.WriteFile fs path (toBytes (runButtonScript heap))).2 := by
  cases hw : os.WriteFile fs path (toBytes (runButtonScript heap)) with
  | mk fs1 werr =>
    unfold createRunButton absPath
    simp only [habs, hw]
    cases werr <;> exact ⟨rfl, rfl, rfl⟩

theorem createRunButton_trace {σ : Type} (os : OS σ) (heap : Int) (fs : σ) :
    (createRunButton os heap fs).trace = [] ∨
      ∃ path : String,
        (createRunButton os heap fs).trace =
          [Event.WriteFile path (toBytes (runButtonScript heap))] := by
  unfold createRunButton
  simp only []
  split
  · left; rfl
  · split
    · right; exact ⟨_, rfl⟩
    · right; exact ⟨_, rfl⟩

/-- C6 (as stated, refuted): the heap size 9007199254740992 (2^53), which the
number prompt accepts, gives a script whose two flags carry
-9223372036854775808 and not 9007199254740992*1024 = 9223372036854775808: the
product is taken in the 64-bit `int` and wraps around. -/
theorem createRunButton_heap_product_wraps :
    handleNumber "9007199254740992" = Except.ok 9007199254740992 ∧
      runButtonScript 9007199254740992 =
        "java -Xms-9223372036854775808M -Xmx-9223372036854775808M -jar server.jar nogui\nPAUSE" ∧
      (9007199254740992 : Int) * 1024 = 9223372036854775808 ∧
      runButtonScript 9007199254740992 ≠
        "java -Xms" ++ FormatInt (9007199254740992 * 1024) ++ "M -Xmx" ++
          FormatInt (9007199254740992 * 1024) ++ "M -jar server.jar nogui" ++ "\nPAUSE" := by
  refine ⟨by decide, by decide, by decide, by decide⟩

/-- C6 (amended): for every heap size `h` whose product `h*1024` fits the
64-bit `int` (that is, -2^53 ≤ h < 2^53), the script text of
`createRunButton(h)` is the single line
`java -Xms<N>M -Xmx<N>M -jar server.jar nogui` with the same `N = h*1024` in
both flags, followed by a line break and `PAUSE`; `createRunButton(h)` writes
exactly this text to `run.bat` (on Windows) or `run.sh` (elsewhere) whenever
the path of that file resolves, and never writes anything else; for any heap size at all `N` is `h*1024`
wrapped into the 64-bit `int`; for `h = 2` the script contains
`-Xms2048M -Xmx2048M`. -/
theorem createRunButton_script (h : Int) (hr : -(2 : Int) ^ 53 ≤ h ∧ h < (2 : Int) ^ 53) :
    runButtonScript h =
        "java -Xms" ++ FormatInt (h * 1024) ++ "M -Xmx" ++ FormatInt (h * 1024) ++
          "M -jar server.jar nogui" ++ "\nPAUSE" ∧
      '\n' ∉ ("java -Xms" ++ FormatInt (h * 1024) ++ "M -Xmx" ++ FormatInt (h * 1024) ++
          "M -jar server.jar nogui").toList ∧
      (∀ (σ : Type) (os : OS σ) (fs : σ),
        (createRunButton os h fs).trace = [] ∨
          ∃ path : String,
            (createRunButton os h fs).trace =
              [Event.WriteFile path (toBytes (runButtonScript h))]) ∧
      (∀ g : Int, runButtonScript g =
        "java -Xms" ++ FormatInt (wrapInt (g * 1024)) ++ "M -Xmx" ++
          FormatInt (wrapInt (g * 1024)) ++ "M -jar server.jar nogui" ++ "\nPAUSE") ∧
      runButtonScript 2 =
        "java " ++ "-Xms2048M -Xmx2048M" ++ " -jar server.jar nogui\nPAUSE" ∧
      (∀ (σ : Type) (os : OS σ) (fs : σ) (path : String),
        os.Abs (if os.GOOS = "windows" then "run.bat" else "run.sh") = Except.ok path →
          (createRunButton os h fs).trace =
              [Event.WriteFile path
                (toBytes ("java -Xms" ++ FormatInt (h * 1024) ++ "M -Xmx" ++
                  FormatInt (h * 1024) ++ "M -jar server.jar nogui" ++ "\nPAUSE"))] ∧
            (createRunButton os h fs).fs =
              (os.WriteFile fs path (toBytes (runButtonScript h))).1 ∧
            (createRunButton os h fs).outcome =
              Outcome.ret (os.WriteFile fs path (toBytes (runButtonScript h))).2) := by
  have hw : wrapInt (h * 1024) = h * 1024 := by
    apply wrapInt_of_fits
    constructor <;> omega
  have hscript : runButtonScript h =
      "java -Xms" ++ FormatInt (h * 1024) ++ "M -Xmx" ++ FormatInt (h * 1024) ++
        "M -jar server.jar nogui" ++ "\nPAUSE" := by
    unfold runButtonScript
    simp only [hw]
    rw [getRunScript_eq]
  refine ⟨hscript, ?_, fun σ os fs => createRunButton_trace os h fs, ?_, by decide, ?_⟩
  rotate_right
  · intro σ os fs path habs
    rw [← hscript]
    exact createRunButton_run os h fs path habs
  rotate_right
  · intro g
    unfold runButtonScript
    simp only []
    rw [getRunScript_eq]
  · rw [← getRunScript_eq]
    exact getRunScript_single_line _

/-- Witness for C6: at the heap size 2, on the concrete world,
`createRunButton` writes `run.sh` with the script whose flags carry 2048. -/
theorem createRunButton_script_witness :
    (createRunButton demoOS 2 []).trace =
        [Event.WriteFile "/srv/run.sh"
          (toBytes ("java -Xms" ++ FormatInt (2 * 1024) ++ "M -Xmx" ++ FormatInt (2 * 1024) ++
            "M -jar server.jar nogui" ++ "\nPAUSE"))] ∧
      runButtonScript 2 =
        "java -Xms" ++ FormatInt (2 * 1024) ++ "M -Xmx" ++ FormatInt (2 * 1024) ++
          "M -jar server.jar nogui" ++ "\nPAUSE" ∧
      FormatInt (2 * 1024) = "2048" :=
  ⟨((createRunButton_script 2 ⟨by decide, by decide⟩).2.2.2.2.2 _ demoOS []
      "/srv/run.sh" rfl).1,
    (createRunButton_script 2 ⟨by decide, by decide⟩).1,
    by decide⟩

/-! ## Structured configuration -/

theorem assertSettings_none (config : List (String × YamlValue))
    (h : ∀ settings, mapGet config "settings" ≠ some (YamlValue.map settings)) :
    assertSettings config = none := by
  unfold assertSettings
  split
  · rename_i settings hs
    exact absurd hs (h settings)
  · rfl

theorem assertSettings_some (config settings : List (String × YamlValue))
    (h : mapGet config "settings" = some (YamlValue.map settings)) :
    assertSettings config = some settings := by
  unfold assertSettings
  rw [h]

theorem adjustPurpurFile_unchanged_or_write {σ : Type} (os : OS σ) (yaml : YAML)
    (keepalive : Bool) (fs : σ) :
    (adjustPurpurFile os yaml keepalive fs).fs = fs ∨
      ∃ path data, Event.WriteFile path data ∈ (adjustPurpurFile os yaml keepalive fs).trace := by
  unfold adjustPurpurFile
  split
  · left; rfl
  · split
    · left; rfl
    · split
      · left; rfl
      · split
        · left; rfl
        · split
          · left; rfl
          · split
            · left; rfl
            · split
              · right; exact ⟨_, _, List.mem_cons_of_mem _ (List.mem_singleton.2 rfl)⟩
              · right; exact ⟨_, _, List.mem_cons_of_mem _ (List.mem_singleton.2 rfl)⟩

/-- Without a call of `WriteFile` the file system is left as it was. -/
theorem adjustPurpurFile_fs_unchanged {σ : Type} (os : OS σ) (yaml : YAML)
    (keepalive : Bool) (fs : σ)
    (h : ∀ path data, Event.WriteFile path data ∉ (adjustPurpurFile os yaml keepalive fs).trace) :
    (adjustPurpurFile os yaml keepalive fs).fs = fs := by
  rcases adjustPurpurFile_unchanged_or_write os yaml keepalive fs with h1 | ⟨path, data, h1⟩
  · exact h1
  · exact absurd h1 (h path data)

/-- C7: `adjustPurpurFile` leaves the file system untouched when it does not
patch: with `keepalive` false it returns success without any read or write;
with `keepalive` true and a parsed document that has no `settings` key, or
whose `settings` value is not a nested mapping, it returns the shape error
after the one read and without any write.  More generally, any call that does
not reach `WriteFile` leaves the file system as it was. -/
theorem adjustPurpurFile_no_patch {σ : Type} (os : OS σ) (yaml : YAML) (keepalive : Bool)
    (fs : σ) (path : String) (data : Bytes) (config : List (String × YamlValue))
    (h : keepalive = false ∨
      (os.Abs PurpurFile = Except.ok path ∧ os.ReadFile fs path = Except.ok data ∧
        yaml.Unmarshal data = Except.ok config ∧
        ∀ settings, mapGet config "settings" ≠ some (YamlValue.map settings))) :
    (adjustPurpurFile os yaml keepalive fs).fs = fs ∧
      (∀ p d, Event.WriteFile p d ∉ (adjustPurpurFile os yaml keepalive fs).trace) ∧
      (keepalive = false →
        (adjustPurpurFile os yaml keepalive fs).outcome = Outcome.ret none ∧
          (adjustPurpurFile os yaml keepalive fs).trace = []) ∧
      (keepalive = true →
        (adjustPurpurFile os yaml keepalive fs).outcome = Outcome.ret (some settingsShapeError) ∧
          (adjustPurpurFile os yaml keepalive fs).trace = [Event.ReadFile path]) ∧
      (∀ (flag : Bool) (before : σ),
        (∀ p d, Event.WriteFile p d ∉ (adjustPurpurFile os yaml flag before).trace) →
          (adjustPurpurFile os yaml flag before).fs = before) := by
  have hgen : ∀ (flag : Bool) (before : σ),
      (∀ p d, Event.WriteFile p d ∉ (adjustPurpurFile os yaml flag before).trace) →
        (adjustPurpurFile os yaml flag before).fs = before :=
    fun flag before hno => adjustPurpurFile_fs_unchanged os yaml flag before hno
  cases keepalive with
  | false =>
    have hrun : adjustPurpurFile os yaml false fs = ⟨Outcome.ret none, fs, []⟩ := rfl
    rw [hrun]
    exact ⟨rfl, by simp, fun _ => ⟨rfl, rfl⟩, fun hf => Bool.noConfusion hf, hgen⟩
  | true =>
    rcases h with h | ⟨habs, hread, hparse, hshape⟩
    · cases h
    · have hrun : adjustPurpurFile os yaml true fs =
          ⟨Outcome.ret (some settingsShapeError), fs, [Event.ReadFile path]⟩ := by
        unfold adjustPurpurFile absPath
        simp only [Bool.not_true, Bool.false_eq_true, if_false, habs, hread, hparse,
          assertSettings_none config hshape]
      rw [hrun]
      exact ⟨rfl, by simp, fun hf => Bool.noConfusion hf, fun _ => ⟨rfl, rfl⟩, hgen⟩

/-- Witness for C7: on the concrete world, once with `keepalive` false and once
with a document whose `settings` value is a string. -/
theorem adjustPurpurFile_no_patch_witness :
    (adjustPurpurFile demoOS (demoYAML []) false [("/srv/purpur.yml", [1])]).fs =
        [("/srv/purpur.yml", [1])] ∧
      (adjustPurpurFile demoOS (demoYAML [("settings", YamlValue.str "x")]) true
        [("/srv/purpur.yml", [1])]).fs = [("/srv/purpur.yml", [1])] :=
  ⟨(adjustPurpurFile_no_patch demoOS (demoYAML []) false [("/srv/purpur.yml", [1])]
      "" [] [] (Or.inl rfl)).1,
    (adjustPurpurFile_no_patch demoOS (demoYAML [("settings", YamlValue.str "x")]) true
      [("/srv/purpur.yml", [1])] "/srv/purpur.yml" [1] [("settings", YamlValue.str "x")]
      (Or.inr ⟨rfl, rfl, rfl, fun settings hs => by
        simp [mapGet] at hs⟩)).1⟩

/-- C8 (as stated, refuted): a document whose `settings` value is a nested
mapping with the integer key 1 (`settings: {1: a}`) does not pass the type
assertion: with `keepalive` true the call returns the shape error after the one
read, writes nothing and leaves the file as it was. -/
theorem adjustPurpurFile_rejects_non_string_keys :
    isNestedMapping (YamlValue.anyMap [(YamlValue.int 1, YamlValue.str "a")]) = true ∧
      (adjustPurpurFile demoOS
          (demoYAML [("settings", YamlValue.anyMap [(YamlValue.int 1, YamlValue.str "a")])])
          true [("/srv/purpur.yml", [1])]).outcome = Outcome.ret (some settingsShapeError) ∧
      (adjustPurpurFile demoOS
          (demoYAML [("settings", YamlValue.anyMap [(YamlValue.int 1, YamlValue.str "a")])])
          true [("/srv/purpur.yml", [1])]).trace = [Event.ReadFile "/srv/purpur.yml"] ∧
      (adjustPurpurFile demoOS
          (demoYAML [("settings", YamlValue.anyMap [(YamlValue.int 1, YamlValue.str "a")])])
          true [("/srv/purpur.yml", [1])]).fs = [("/srv/purpur.yml", [1])] :=
  ⟨rfl, rfl, rfl, rfl⟩

/-- C8 (amended): with `keepalive` true and a parsed document whose `settings`
value is a nested mapping with string keys only (the dynamic type
`map[string]any`), the tree handed to the serializer, whose output is what gets
written over the file, is the parsed tree with
`settings.use-alternate-keepalive` set to true.  Every other key of `settings`
and every other top-level key reads as before, present or absent alike. -/
theorem adjustPurpurFile_patch_frame {σ : Type} (os : OS σ) (yaml : YAML) (fs : σ)
    (path : String) (data newData : Bytes) (config settings : List (String × YamlValue))
    (habs : os.Abs PurpurFile = Except.ok path)
    (hread : os.ReadFile fs path = Except.ok data)
    (hparse : yaml.Unmarshal data = Except.ok config)
    (hsettings : mapGet config "settings" = some (YamlValue.map settings))
    (hmarshal : yaml.Marshal (patchedConfig config settings true) = Except.ok newData) :
    (adjustPurpurFile os yaml true fs).trace =
        [Event.ReadFile path, Event.WriteFile path newData] ∧
      (adjustPurpurFile os yaml true fs).fs = (os.WriteFile fs path newData).1 ∧
      (adjustPurpurFile os yaml true fs).outcome = Outcome.ret (os.WriteFile fs path newData).2 ∧
      (∃ written : List (String × YamlValue),
        mapGet (patchedConfig config settings true) "settings" = some (YamlValue.map written) ∧
          mapGet written "use-alternate-keepalive" = some (YamlValue.bool true) ∧
          ∀ key : String, key ≠ "use-alternate-keepalive" →
            mapGet written key = mapGet settings key) ∧
      (∀ key : String, key ≠ "settings" →
        mapGet (patchedConfig config settings true) key = mapGet config key) := by
  have hrun : adjustPurpurFile os yaml true fs =
      match os.WriteFile fs path newData with
      | (fs1, some err) =>
        ⟨Outcome.ret (some err), fs1, [Event.ReadFile path, Event.WriteFile path newData]⟩
      | (fs1, none) =>
        ⟨Outcome.ret none, fs1, [Event.ReadFile path, Event.WriteFile path newData]⟩ := by
    unfold adjustPurpurFile absPath
    simp only [Bool.not_true, Bool.false_eq_true, if_false, habs, hread, hparse,
      assertSettings_some config settings hsettings, hmarshal]
  refine ⟨?_, ?_, ?_, ?_, ?_⟩
  · rw [hrun]; split <;> rfl
  · rw [hrun]; split <;> rename_i hw <;> rw [hw]
  · rw [hrun]; split <;> rename_i hw <;> rw [hw]
  · refine ⟨mapSet settings "use-alternate-keepalive" (YamlValue.bool true), ?_, ?_, ?_⟩
    · exact mapGet_mapSet_same _ _ _
    · exact mapGet_mapSet_same _ _ _
    · intro key hkey
      exact mapGet_mapSet_other _ _ _ _ hkey
  · intro key hkey
    exact mapGet_mapSet_other _ _ _ _ hkey

/-- Witness for C8: on the concrete world, a document with a sibling key next
to `settings` and a sibling key inside it. -/
theorem adjustPurpurFile_patch_frame_witness :
    (adjustPurpurFile demoOS
        (demoYAML [("verbose", YamlValue.bool false),
          ("settings", YamlValue.map [("lagging-threshold", YamlValue.int 19)])])
        true [("/srv/purpur.yml", [1])]).trace =
      [Event.ReadFile "/srv/purpur.yml", Event.WriteFile "/srv/purpur.yml" []] :=
  (adjustPurpurFile_patch_frame demoOS
    (demoYAML [("verbose", YamlValue.bool false),
      ("settings", YamlValue.map [("lagging-threshold", YamlValue.int 19)])])
    [("/srv/purpur.yml", [1])] "/srv/purpur.yml" [1] []
    [("verbose", YamlValue.bool false),
      ("settings", YamlValue.map [("lagging-threshold", YamlValue.int 19)])]
    [("lagging-threshold", YamlValue.int 19)] rfl rfl rfl rfl rfl).1

/-! ## Artifact download -/

/-- C9: when building the request, the round trip and the reading of the body
all succeed, `downloadJarFile` returns an error and no bytes if and only if the
status code is 400; for every other status code it returns the body, unchanged,
and no error. -/
theorem downloadJarFile_status {ρ : Type} (http : HTTP ρ) (version : String)
    (req : Request) (resp : Response ρ) (body : Bytes)
    (hreq : http.NewRequest "GET" (Sprintf URL [Arg.str version]) = Except.ok req)
    (hdo : http.Do req = Except.ok resp)
    (hread : http.ReadAll resp.Body = Except.ok body) :
    ((∃ e : GoError, downloadJarFile http version = (none, some e)) ↔ resp.StatusCode = 400) ∧
      ((downloadJarFile http version).2 ≠ none ↔ resp.StatusCode = 400) ∧
      (resp.StatusCode ≠ 400 → downloadJarFile http version = (some body, none)) ∧
      (resp.StatusCode = 400 →
        downloadJarFile http version =
          (none, some (fail "Version \"%s\" was not found, code %d, response: %s"
            [Arg.str version, Arg.int resp.StatusCode, Arg.bytes body]))) := by
  have hrun : downloadJarFile http version =
      if resp.StatusCode = 400 then
        (none, some (fail "Version \"%s\" was not found, code %d, response: %s"
          [Arg.str version, Arg.int resp.StatusCode, Arg.bytes body]))
      else (some body, none) := by
    unfold downloadJarFile
    simp only [hreq, hdo, hread]
  by_cases h400 : resp.StatusCode = 400
  · rw [hrun, if_pos h400]
    refine ⟨⟨fun _ => h400, fun _ => ⟨_, rfl⟩⟩, ⟨fun _ => h400, fun _ => by simp⟩, ?_, ?_⟩
    · intro hne; exact absurd h400 hne
    · intro _; rfl
  · rw [hrun, if_neg h400]
    refine ⟨⟨?_, fun h => absurd h h400⟩, ⟨?_, fun h => absurd h h400⟩, ?_, ?_⟩
    · rintro ⟨e, he⟩
      cases he
    · intro hne
      exact absurd rfl hne
    · intro _; rfl
    · intro h; exact absurd h h400

/-- Witness for C9: a server error (status 500) still yields the body. -/
theorem downloadJarFile_status_witness :
    downloadJarFile (demoHTTP 500) "1.21" = (some [80, 75], none) :=
  (downloadJarFile_status (demoHTTP 500) "1.21"
    ⟨"GET", Sprintf URL [Arg.str "1.21"]⟩ ⟨500, [80, 75]⟩ [80, 75] rfl rfl rfl).2.2.1
    (by decide)

/-! ## Prompt loop -/

theorem ReadString_line (l rest : List Char) (h : '\n' ∉ l) :
    ReadString (l ++ '\n' :: rest) '\n' = some (l ++ ['\n'], rest) := by
  induction l with
  | nil => simp [ReadString]
  | cons c cs ih =>
    have hc : c ≠ '\n' := fun e => h (by simp [e])
    have hcs : '\n' ∉ cs := fun e => h (List.mem_cons_of_mem _ e)
    rw [List.cons_append, ReadString, if_neg hc, ih hcs]
    rfl

theorem ReadString_shorter (r : List Char) (delim : Char) (line rest : List Char)
    (h : ReadString r delim = some (line, rest)) : rest.length < r.length := by
  induction r generalizing line with
  | nil => simp [ReadString] at h
  | cons c cs ih =>
    unfold ReadString at h
    split at h
    · cases h
      simp
    · split at h
      · cases h
      · rename_i l2 r2 h2
        cases h
        have := ih l2 h2
        simp only [List.length_cons]
        omega

theorem dropWhile_append_singleton (p : Char → Bool) (a : Char) (ha : p a = true)
    (l : List Char) :
    (l ++ [a]).dropWhile p = if l.dropWhile p = [] then [] else l.dropWhile p ++ [a] := by
  induction l with
  | nil => simp [List.dropWhile, ha]
  | cons c cs ih =>
    by_cases hc : p c = true
    · simp only [List.cons_append, List.dropWhile, hc]
      exact ih
    · simp [List.dropWhile, hc]

/-- Trimming removes the newline that ends a line. -/
theorem TrimSpace_newline (l : List Char) : TrimSpace (l ++ ['\n']) = TrimSpace l := by
  unfold TrimSpace
  rw [dropWhile_append_singleton isSpace '\n' (by decide)]
  by_cases h : l.dropWhile isSpace = []
  · rw [if_pos h, h]
  · rw [if_neg h]
    simp only [List.reverse_append, List.reverse_cons, List.reverse_nil, List.nil_append,
      List.singleton_append]
    rw [List.dropWhile_cons_of_pos (by decide)]

theorem readLine_line (l rest : List Char) (text : String) (h : '\n' ∉ l) :
    readLine (l ++ '\n' :: rest) text =
      ([Output.Print text], Outcome.ret (String.mk (TrimSpace l), rest)) := by
  unfold readLine
  rw [ReadString_line l rest h]
  simp only [TrimSpace_newline]

theorem feed_cons (l : List Char) (more : List (List Char)) (rest : List Char) :
    feed (l :: more) rest = l ++ '\n' :: feed more rest := rfl

theorem feed_length (lines : List (List Char)) (rest : List Char) :
    lines.length ≤ (feed lines rest).length := by
  induction lines with
  | nil => simp [feed]
  | cons l more ih =>
    simp only [feed, List.length_append, List.length_cons]
    omega

theorem inputLoop_first_accepted {T : Type} (mapper : String → Result T) (text : String)
    (rejected : List (List Char × GoError)) (good : List Char) (v : T) (rest : List Char)
    (hrej : ∀ r ∈ rejected,
      '\n' ∉ r.1 ∧ mapper (String.mk (TrimSpace r.1)) = Except.error r.2)
    (hgood : '\n' ∉ good) (hv : mapper (String.mk (TrimSpace good)) = Except.ok v)
    (fuel : Nat) (out : List Output) (hfuel : rejected.length < fuel) :
    inputLoop text mapper fuel (feed (rejected.map (fun r => r.1) ++ [good]) rest) out =
      InputResult.returned v rest
        (out ++ (rejected.map (fun r => [Output.Print text, Output.Println r.2])).flatten ++
          [Output.Print text]) := by
  induction rejected generalizing fuel out with
  | nil =>
    cases fuel with
    | zero => omega
    | succ f =>
      have hfeed : feed ([] ++ [good]) rest = good ++ '\n' :: rest := rfl
      simp only [List.map_nil, List.flatten_nil, List.append_nil]
      rw [hfeed]
      unfold inputLoop
      rw [readLine_line good rest text hgood]
      simp only [hv]
  | cons r rs ih =>
    cases fuel with
    | zero => omega
    | succ f =>
      have hr := hrej r (List.mem_cons_self _ _)
      have hrs : ∀ q ∈ rs,
          '\n' ∉ q.1 ∧ mapper (String.mk (TrimSpace q.1)) = Except.error q.2 :=
        fun q hq => hrej q (List.mem_cons_of_mem _ hq)
      rw [List.map_cons, List.cons_append, feed_cons, List.map_cons, List.flatten_cons]
      unfold inputLoop
      rw [readLine_line r.1 _ text hr.1]
      simp only [hr.2]
      rw [ih hrs f _ (by simpa using hfuel)]
      simp only [List.append_assoc, List.cons_append, List.nil_append]

/-- The loop of `input` always ends within the iteration bound of the model:
it returns or it panics at the end of the input. -/
theorem inputLoop_total {T : Type} (mapper : String → Result T) (text : String)
    (fuel : Nat) (reader : List Char) (out : List Output) (h : reader.length < fuel) :
    inputLoop text mapper fuel reader out ≠ InputResult.unfinished := by
  induction fuel generalizing reader out with
  | zero => omega
  | succ f ih =>
    unfold inputLoop readLine
    cases hrs : ReadString reader '\n' with
    | none => simp
    | some lr =>
      obtain ⟨line, rest⟩ := lr
      have hshort := ReadString_shorter reader '\n' line rest hrs
      simp only []
      cases hm : mapper (String.mk (TrimSpace line)) with
      | ok mapped => simp
      | error err =>
        simp only []
        exact ih rest _ (by omega)

theorem input_total {T : Type} (mapper : String → Result T) (text : String)
    (reader : List Char) : input reader text mapper ≠ InputResult.unfinished :=
  inputLoop_total mapper text _ reader [] (Nat.lt_succ_self _)

/-- C10 (as stated, refuted): the input `abc`, newline, `1.15` holds the line
`1.15`, which the version validator accepts, but that line is not ended by a
newline: the first line is rejected and re-prompted, then the read fails at the
end of the input and `readLine` panics; no value is returned.  The same happens
on the single unterminated line `1.15`. -/
theorem input_unterminated_panics :
    validateVersion (String.mk (TrimSpace "1.15".toList)) = Except.ok "1.15" ∧
      input "abc\n1.15".toList "Version: " validateVersion =
        InputResult.panicked EOF
          [Output.Print "Version: ",
            Output.Println (fail "Versions can only have 2-3 tokens, ex.: 1.24 or 1.24.4" []),
            Output.Print "Version: "] ∧
      input "1.15".toList "Version: " validateVersion =
        InputResult.panicked EOF [Output.Print "Version: "] := by
  refine ⟨by decide, by decide, by decide⟩

/-- C10 (amended): whatever the validator, when the input holds lines that the
validator rejects followed by a line that it accepts, each of these lines, the
accepted one included, ended by a newline,
`input` returns the validator's value for that first accepted line, trimmed of
surrounding whitespace.  The rejected lines before it are consumed, each
answered by its error message and a fresh prompt, and nothing after the
accepted line is read; the result is a value, never a validation error. -/
theorem input_returns_first_accepted {T : Type} (mapper : String → Result T) (text : String)
    (rejected : List (List Char × GoError)) (good : List Char) (v : T) (rest : List Char)
    (hrej : ∀ r ∈ rejected,
      '\n' ∉ r.1 ∧ mapper (String.mk (TrimSpace r.1)) = Except.error r.2)
    (hgood : '\n' ∉ good) (hv : mapper (String.mk (TrimSpace good)) = Except.ok v) :
    input (feed (rejected.map (fun r => r.1) ++ [good]) rest) text mapper =
      InputResult.returned v rest
        ((rejected.map (fun r => [Output.Print text, Output.Println r.2])).flatten ++
          [Output.Print text]) := by
  unfold input
  rw [inputLoop_first_accepted mapper text rejected good v rest hrej hgood hv _ []]
  · simp
  · have := feed_length (rejected.map (fun r => r.1) ++ [good]) rest
    simp only [List.length_append, List.length_map, List.length_singleton] at this
    omega

/-- Witness for C10: the version prompt fed with a rejected line, an accepted
line with blanks around it, and one more line that stays unread. -/
theorem input_returns_first_accepted_witness :
    input (feed ["abc".toList, " 1.15 ".toList] "y\n".toList) "Version: " validateVersion =
      InputResult.returned "1.15" "y\n".toList
        [Output.Print "Version: ",
          Output.Println (fail "Versions can only have 2-3 tokens, ex.: 1.24 or 1.24.4" []),
          Output.Print "Version: "] :=
  input_returns_first_accepted validateVersion "Version: "
    [("abc".toList, fail "Versions can only have 2-3 tokens, ex.: 1.24 or 1.24.4" [])]
    " 1.15 ".toList "1.15" "y\n".toList (by decide) (by decide) (by decide)

end ServerInstaller
